import Mathlib

/-!
Verification of the time-shift ring-buffer engine of vdr-plugin-robotv
(src/src/live/livequeue.cpp), as a shallow embedding.

File offsets are modelled as natural numbers (the code never produces a
negative offset), wall-clock times and presentation timestamps as integers
(int64_t in the source).  The on-disk ring-buffer file is modelled as a
partial map from a start offset to the length of the packet written there;
writing a packet installs its length at the write offset and invalidates any
packet start that its byte range overwrites.  Packet file I/O is modelled as
succeeding whenever a well-formed packet is present at the cursor.
-/

/-- StreamInfo::Content, restricted to the constructors the queue tests. -/
inductive Content
  | scVIDEO
  | scAUDIO
  | scOTHER
  deriving DecidableEq, Repr

/-- StreamInfo::FrameType; only ftIFRAME is ever compared against. -/
inductive FrameType
  | ftIFRAME
  | ftOTHER
  deriving DecidableEq, Repr

/-- An opaque MsgPacket: its encoded length and the client id field, which
LiveQueue::write compares with ftIFRAME to detect keyframes. -/
structure MsgPacket where
  packetLength : Nat
  clientId : FrameType
  deriving DecidableEq, Repr

/-- PacketData: one entry of the submission queue. -/
structure PacketData where
  p : MsgPacket
  content : Content
  pts : Int
  deriving DecidableEq, Repr

/-- One keyframe index entry (struct in livequeue.h, fields as used by
livequeue.cpp): file offset, wall-clock write time, presentation timestamp,
wrap generation at write time. -/
structure IndexEntry where
  filePosition : Nat
  wallclockTime : Int
  pts : Int
  wrapCount : Nat
  deriving DecidableEq, Repr

/-- The mutable state of a LiveQueue: the two file cursors, the wrap flags,
the keyframe index, the queue start time, the pause flag and the modelled
disk contents.  readWrapCount is a ghost history variable counting how often
the read cursor has wrapped (the code logs these events but stores no
counter); it is needed to state the lap-parity claims. -/
structure QState where
  readPos : Nat
  writePos : Nat
  wrapped : Bool
  hasWrapped : Bool
  wrapCount : Nat
  readWrapCount : Nat
  indexList : List IndexEntry
  queueStartTime : Int
  pauseFlag : Bool
  disk : Nat → Option Nat

/-- Modelled from the spec: the initial state of a freshly constructed
LiveQueue.  The header livequeue.h (not part of the provided sources)
declares the members initialised by the constructor and cleanup(); the spec
states that the queue start wall-clock time is unset, reading as zero,
before the first write, that the wrap flags start false, the generation
counter at zero, and that the backing file is created empty with both
cursors at offset zero. -/
def initState : QState :=
  { readPos := 0
    writePos := 0
    wrapped := false
    hasWrapped := false
    wrapCount := 0
    readWrapCount := 0
    indexList := []
    queueStartTime := 0
    pauseFlag := false
    disk := fun _ => none }

/-- Writing a packet of length len at offset o: the packet start is recorded
at o and every packet start strictly inside the overwritten byte range
(o, o + len) is destroyed. -/
def diskWrite (d : Nat → Option Nat) (o len : Nat) : Nat → Option Nat :=
  fun x => if x = o then some len else if o < x ∧ x < o + len then none else d x

/-- LiveQueue::internalRead (livequeue.cpp lines 115-139).  If the read
cursor has reached the buffer size it wraps to zero and toggles the wrapped
flag (incrementing the ghost read-wrap counter).  If the read cursor is at
or past the write cursor and the buffer is not wrapped there is nothing to
read.  Otherwise the packet at the read cursor is decoded and the cursor
advances past it; a malformed position yields no packet (MsgPacket::read
returning NULL). -/
def internalRead (cap : Nat) (s : QState) : Option Nat × QState :=
  let s1 := if cap ≤ s.readPos then
      { s with readPos := 0, wrapped := !s.wrapped,
               readWrapCount := s.readWrapCount + 1 }
    else s
  if s1.writePos ≤ s1.readPos ∧ s1.wrapped = false then (none, s1)
  else match s1.disk s1.readPos with
    | none => (none, s1)
    | some len => (some len, { s1 with readPos := s1.readPos + len })

/-- Result of the overrun-prevention loop in LiveQueue::write: the loop
exits normally, or an internalRead yields no packet (the write fails), or
the modelling fuel is exhausted. -/
inductive SkipRes
  | stop (s : QState)
  | fail (s : QState)
  | out

/-- The while loop of LiveQueue::write (lines 193-197): while the candidate
packet end reaches or passes readPosition - the local read offset captured
once at line 174 and never updated, so the loop condition does not see the
skips advancing the read cursor - and the buffer is wrapped, skip one packet
at the read cursor; if the skip-read yields no packet the write fails.
Once entered, the loop therefore ends only when a skip wraps the read
cursor (clearing the wrapped flag) or a skip-read yields no packet.  The
C++ loop is unbounded; fuel makes the model total. -/
def skipLoop (cap packetEnd readPosition : Nat) : Nat → QState → SkipRes
  | 0, _ => .out
  | fuel + 1, s =>
    if readPosition ≤ packetEnd ∧ s.wrapped = true then
      match internalRead cap s with
      | (none, s1) => .fail s1
      | (some _, s1) => skipLoop cap packetEnd readPosition fuel s1
    else .stop s

/-- LiveQueue::trim (lines 228-243): once any wrap has occurred and the
index is non-empty, drop the oldest index entry if its bytes lie before the
current write position in an older generation, and then redefine the queue
start time as the wall-clock time of the (new) oldest entry if any entry
remains. -/
def trim (pos : Nat) (s : QState) : QState :=
  if s.hasWrapped = false ∨ s.indexList = [] then s
  else
    let s1 := match s.indexList with
      | [] => s
      | p :: rest =>
        if p.filePosition < pos ∧ p.wrapCount < s.wrapCount then
          { s with indexList := rest }
        else s
    match s1.indexList with
    | [] => s1
    | p :: _ => { s1 with queueStartTime := p.wallclockTime }

/-- Result of LiveQueue::write: either the bounded model ran out of fuel in
the skip loop (carrying the state at that point), or the write finished with
a success flag and the final state. -/
inductive WriteRes
  | out (s : QState)
  | done (ok : Bool) (s : QState)

/-- The entry phase of LiveQueue::write (lines 160-186): record the queue
start time if it is still zero, then wrap the write cursor (toggling
wrapped, setting hasWrapped, incrementing wrapCount) if it has reached the
buffer size. -/
def writeBegin (cap : Nat) (now : Int) (s : QState) : QState :=
  let s1 := if s.queueStartTime = 0 then { s with queueStartTime := now } else s
  if cap ≤ s1.writePos then
    { s1 with writePos := 0, wrapped := !s1.wrapped, hasWrapped := true,
              wrapCount := s1.wrapCount + 1 }
  else s1

/-- LiveQueue::write (lines 157-217).  Records the queue start time if it is
still zero, wraps the write cursor (toggling wrapped, setting hasWrapped,
incrementing wrapCount) if it has reached the buffer size, runs the
overrun-prevention skip loop against the read offset sampled once at line
174, trims the index, records a keyframe index entry for video iframes,
persists the packet and advances the write cursor.
The wall clock (roboTV::currentTimeMillis) is an explicit argument; packet
file output is modelled as succeeding. -/
def write (cap fuel : Nat) (data : PacketData) (now : Int) (s : QState) : WriteRes :=
  let s2 := writeBegin cap now s
  let packetEnd := s2.writePos + data.p.packetLength
  match skipLoop cap packetEnd s.readPos fuel s2 with
  | .out => .out s2
  | .fail s3 => .done false s3
  | .stop s3 =>
    let s4 := trim packetEnd s3
    let s5 := if data.p.clientId = FrameType.ftIFRAME ∧ data.content = Content.scVIDEO then
        { s4 with indexList :=
            s4.indexList ++ [⟨s2.writePos, now, data.pts, s4.wrapCount⟩] }
      else s4
    .done true { s5 with
      disk := diskWrite s5.disk s2.writePos data.p.packetLength,
      writePos := s2.writePos + data.p.packetLength }

/-- The scan of LiveQueue::seekNextKeyFrame (lines 326-348) over the index:
find the first adjacent pair (i, j) with i.filePosition < readPos and
readPos ≤ j.filePosition and return the file position of j; reaching the end
of the index (also immediately, for an empty or single-entry index) yields
no reposition. -/
def seekNextKeyFrameLoop (readPos : Nat) : List IndexEntry → Option Nat
  | [] => none
  | [_] => none
  | i :: j :: rest =>
    if i.filePosition < readPos ∧ readPos ≤ j.filePosition then
      some j.filePosition
    else seekNextKeyFrameLoop readPos (j :: rest)

/-- LiveQueue::seekNextKeyFrame: reposition the read cursor to the boundary
found by the scan, or leave it unchanged. -/
def seekNextKeyFrame (s : QState) : QState :=
  match seekNextKeyFrameLoop s.readPos s.indexList with
  | some p => { s with readPos := p }
  | none => s

/-- LiveQueue::read (lines 101-113): while paused no packet is returned and
nothing moves; in keyframe mode the cursor is first moved to the next
keyframe boundary; then internalRead runs. -/
def LiveQueue.read (cap : Nat) (keyFrameMode : Bool) (s : QState) : Option Nat × QState :=
  if s.pauseFlag then (none, s)
  else internalRead cap (if keyFrameMode then seekNextKeyFrame s else s)

/-- The body of LiveQueue::seek (lines 285-324) on the index list: returns
the presentation timestamp and the new read offset, or none on failure.
The newest entry is the last of the list (rbegin), the oldest the first
(begin); the in-between scan iterates from newest to oldest. -/
def seekAux (t : Int) : List IndexEntry → Option (Int × Nat)
  | [] => none
  | hd :: tl =>
    let newest := (hd :: tl).getLastD hd
    if newest.wallclockTime ≤ t then some (newest.pts, newest.filePosition)
    else if t ≤ hd.wallclockTime then some (hd.pts, hd.filePosition)
    else match (hd :: tl).reverse.find? (fun e => decide (e.wallclockTime ≤ t)) with
      | some e => some (e.pts, e.filePosition)
      | none => none

/-- LiveQueue::seek: on success reposition the read cursor and return the
presentation timestamp; on failure return the zero sentinel and leave the
state untouched. -/
def seek (t : Int) (s : QState) : Int × QState :=
  match seekAux t s.indexList with
  | some (pts, pos) => (pts, { s with readPos := pos })
  | none => (0, s)

/-- LiveQueue::pause (lines 245-254): no-op returning false when the flag
already has the requested value, otherwise sets it and returns true. -/
def pause (b : Bool) (s : QState) : Bool × QState :=
  if s.pauseFlag = b then (false, s) else (true, { s with pauseFlag := b })

/-- LiveQueue::queue (lines 146-155) on the submission list, paired with a
ghost counter of dropped (destroyed) packets: with 400 or more entries
already queued the packet is destroyed, otherwise it is appended. -/
def queueOp (q : List PacketData × Nat) (d : PacketData) : List PacketData × Nat :=
  if 400 ≤ q.1.length then (q.1, q.2 + 1) else (q.1 ++ [d], q.2)

/-- The public operations of the queue, for reachability statements. -/
inductive Op
  | opWrite (d : PacketData) (now : Int)
  | opRead (kf : Bool)
  | opSeek (t : Int)
  | opPause (b : Bool)

/-- One public operation applied to the state (a fuel-exhausted write keeps
the partially mutated state it reached). -/
def step (cap fuel : Nat) (s : QState) : Op → QState
  | .opWrite d now =>
    match write cap fuel d now s with
    | .out s1 => s1
    | .done _ s1 => s1
  | .opRead kf => (LiveQueue.read cap kf s).2
  | .opSeek t => (seek t s).2
  | .opPause b => (pause b s).2

/-- Running a list of public operations from a state. -/
def run (cap fuel : Nat) (ops : List Op) (s : QState) : QState :=
  ops.foldl (step cap fuel) s

/-- Whether a write succeeds from a given state. -/
def writeOk (cap fuel : Nat) (d : PacketData) (now : Int) (s : QState) : Bool :=
  match write cap fuel d now s with
  | .done true _ => true
  | _ => false

/-- Whether one operation is successful from a state: a write must succeed,
reads, seeks and pauses are unconstrained. -/
def opOkChk (cap fuel : Nat) (s : QState) : Op → Bool
  | .opWrite d now => writeOk cap fuel d now s
  | _ => true

/-- Every write of an operation sequence succeeds from a state. -/
def opsOk (cap fuel : Nat) : QState → List Op → Bool
  | _, [] => true
  | s, op :: ops => opOkChk cap fuel s op && opsOk cap fuel (step cap fuel s op) ops

/-- Whether one operation is clean from a state: a write must succeed and
stay within the capacity boundary (no straddling of the wrap point); reads,
seeks and pauses are unconstrained. -/
def opCleanChk (cap fuel : Nat) (s : QState) : Op → Bool
  | .opWrite d now =>
    decide ((if cap ≤ s.writePos then 0 else s.writePos) + d.p.packetLength ≤ cap)
      && writeOk cap fuel d now s
  | _ => true

/-- Every write of an operation sequence is clean from a state. -/
def opsClean (cap fuel : Nat) : QState → List Op → Bool
  | _, [] => true
  | s, op :: ops => opCleanChk cap fuel s op && opsClean cap fuel (step cap fuel s op) ops

/-- Total bytes submitted by the writes of an operation sequence. -/
def writeBytes : List Op → Nat
  | [] => 0
  | .opWrite d _ :: ops => d.p.packetLength + writeBytes ops
  | _ :: ops => writeBytes ops

/-- Concrete non-keyframe packet data of a given length, for the concrete
traces below. -/
def plainPkt (len : Nat) : PacketData := ⟨⟨len, FrameType.ftOTHER⟩, Content.scOTHER, 0⟩

/-- Concrete video keyframe packet data with a given length and timestamp. -/
def keyPkt (len : Nat) (pts : Int) : PacketData := ⟨⟨len, FrameType.ftIFRAME⟩, Content.scVIDEO, pts⟩

/-- Trace for the overrun-skip counterexample: three successful writes of
lengths 3, 3 and 4 fill a buffer of capacity 10 exactly, leaving the read
cursor at offset 0 and the write cursor at offset 10. -/
def c1trace : List Op :=
  [Op.opWrite (plainPkt 3) 1, Op.opWrite (plainPkt 3) 2, Op.opWrite (plainPkt 4) 3]

/-- Two writes of 7 bytes each into a buffer of capacity 10: the second one
straddles the capacity boundary.  Both succeed (no wrap occurs yet). -/
def c2ops : List Op := [Op.opWrite (plainPkt 7) 5, Op.opWrite (plainPkt 7) 6]

/-- A clean operation sequence for capacity 10: two 5-byte writes fill the
buffer, two reads drain it (parking the read cursor at offset 10), and a
third 5-byte write wraps exactly at the boundary and succeeds because the
sampled read offset 10 exceeds its candidate end 5. -/
def c2witOps : List Op :=
  [Op.opWrite (plainPkt 5) 1, Op.opWrite (plainPkt 5) 2,
   Op.opRead false, Op.opRead false, Op.opWrite (plainPkt 5) 3]

/-- A sorted three-entry keyframe index used by the seek witnesses. -/
def c3idx : List IndexEntry := [⟨0, 10, 100, 0⟩, ⟨5, 20, 200, 0⟩, ⟨9, 30, 300, 0⟩]

/-- A queue state carrying the three-entry index. -/
def c3state : QState := { initState with indexList := c3idx }

/-- A sorted two-entry index whose oldest and newest entries carry the same
wall-clock time but different offsets and timestamps. -/
def c4state : QState :=
  { initState with indexList := [⟨0, 5, 1, 0⟩, ⟨7, 5, 2, 0⟩] }

/-- A queue state with the three-entry index and the read cursor strictly
inside the first keyframe segment. -/
def c5state : QState := { initState with indexList := c3idx, readPos := 3 }

/-- Prefix of the queue-start-time counterexample (capacity 10): a 6-byte
non-keyframe write at time 100 (recording start time 100), a 6-byte video
keyframe at time 200 (index entry at offset 6), and a 2-byte non-keyframe
write at time 300 that wraps the write cursor, fails inside the skip loop
(the read cursor wraps and the following internalRead yields nothing) and
returns before trim - leaving hasWrapped set and the start time at 100. -/
def c6opsA : List Op :=
  [Op.opWrite (plainPkt 6) 100, Op.opWrite (keyPkt 6 55) 200,
   Op.opWrite (plainPkt 2) 300]

/-- The same trace followed by a successful 3-byte non-keyframe write at
time 400, whose trim pass removes nothing from the index yet rewrites the
queue start time. -/
def c6opsB : List Op := c6opsA ++ [Op.opWrite (plainPkt 3) 400]

/-- A trace of successful operations (capacity 10) after which the write
cursor has wrapped three times while the read cursor never has: writes of
9 and 5 bytes (the second straddling to offset 14), two reads parking the
read cursor at offset 14, then writes of lengths 1, 9, 1, 9, 1 whose
candidate ends never reach the sampled read offset 14, so the three
wrapping writes succeed without entering the skip loop. -/
def c9trace : List Op :=
  [Op.opWrite (plainPkt 9) 1, Op.opWrite (plainPkt 5) 2,
   Op.opRead false, Op.opRead false,
   Op.opWrite (plainPkt 1) 3, Op.opWrite (plainPkt 9) 4, Op.opWrite (plainPkt 1) 5,
   Op.opWrite (plainPkt 9) 6, Op.opWrite (plainPkt 1) 7]

/-! ## Helper lemmas -/

theorem internalRead_keeps (cap : Nat) (s : QState) :
    ((internalRead cap s).2).writePos = s.writePos ∧
    ((internalRead cap s).2).wrapCount = s.wrapCount ∧
    ((internalRead cap s).2).hasWrapped = s.hasWrapped ∧
    ((internalRead cap s).2).indexList = s.indexList ∧
    ((internalRead cap s).2).queueStartTime = s.queueStartTime ∧
    ((internalRead cap s).2).pauseFlag = s.pauseFlag ∧
    ((internalRead cap s).2).disk = s.disk := by
  unfold internalRead
  dsimp only
  split <;> split <;> first
    | exact ⟨rfl, rfl, rfl, rfl, rfl, rfl, rfl⟩
    | (split <;> exact ⟨rfl, rfl, rfl, rfl, rfl, rfl, rfl⟩)

theorem skipLoop_keeps (cap packetEnd readPosition : Nat) :
    ∀ (fuel : Nat) (s s2 : QState),
      (skipLoop cap packetEnd readPosition fuel s = .stop s2 ∨
        skipLoop cap packetEnd readPosition fuel s = .fail s2) →
      s2.writePos = s.writePos ∧ s2.wrapCount = s.wrapCount ∧
      s2.hasWrapped = s.hasWrapped ∧ s2.indexList = s.indexList ∧
      s2.queueStartTime = s.queueStartTime ∧ s2.pauseFlag = s.pauseFlag ∧
      s2.disk = s.disk := by
  intro fuel
  induction fuel with
  | zero => intro s s2 h; rcases h with h | h <;> simp [skipLoop] at h
  | succ n ih =>
    intro s s2 h
    rcases h with h | h <;>
    · rw [skipLoop] at h
      split at h
      · rcases h2 : internalRead cap s with ⟨r, s1⟩
        rw [h2] at h
        have hk := internalRead_keeps cap s
        rw [h2] at hk
        cases r with
        | none =>
          simp only at h
          first
            | (cases h; exact hk)
            | exact absurd h (by simp)
        | some len =>
          simp only at h
          first
            | (have hih := ih s1 s2 (Or.inl h)
               exact ⟨hih.1.trans hk.1, hih.2.1.trans hk.2.1, hih.2.2.1.trans hk.2.2.1,
                      hih.2.2.2.1.trans hk.2.2.2.1, hih.2.2.2.2.1.trans hk.2.2.2.2.1,
                      hih.2.2.2.2.2.1.trans hk.2.2.2.2.2.1, hih.2.2.2.2.2.2.trans hk.2.2.2.2.2.2⟩)
            | (have hih := ih s1 s2 (Or.inr h)
               exact ⟨hih.1.trans hk.1, hih.2.1.trans hk.2.1, hih.2.2.1.trans hk.2.2.1,
                      hih.2.2.2.1.trans hk.2.2.2.1, hih.2.2.2.2.1.trans hk.2.2.2.2.1,
                      hih.2.2.2.2.2.1.trans hk.2.2.2.2.2.1, hih.2.2.2.2.2.2.trans hk.2.2.2.2.2.2⟩)
      · first
          | (cases h; exact ⟨rfl, rfl, rfl, rfl, rfl, rfl, rfl⟩)
          | exact absurd h (by simp)

theorem seekNextKeyFrame_keeps (s : QState) :
    (seekNextKeyFrame s).writePos = s.writePos ∧
    (seekNextKeyFrame s).wrapCount = s.wrapCount ∧
    (seekNextKeyFrame s).wrapped = s.wrapped ∧
    (seekNextKeyFrame s).readWrapCount = s.readWrapCount := by
  unfold seekNextKeyFrame
  cases h : seekNextKeyFrameLoop s.readPos s.indexList <;> exact ⟨rfl, rfl, rfl, rfl⟩

theorem seek_keeps (t : Int) (s : QState) :
    (seek t s).2.writePos = s.writePos ∧
    (seek t s).2.wrapCount = s.wrapCount ∧
    (seek t s).2.wrapped = s.wrapped ∧
    (seek t s).2.readWrapCount = s.readWrapCount := by
  unfold seek
  cases h : seekAux t s.indexList with
  | none => exact ⟨rfl, rfl, rfl, rfl⟩
  | some pr =>
    rcases pr with ⟨pts, pos⟩
    exact ⟨rfl, rfl, rfl, rfl⟩

theorem step_read_keeps (cap fuel : Nat) (kf : Bool) (s : QState) :
    (step cap fuel s (.opRead kf)).writePos = s.writePos ∧
    (step cap fuel s (.opRead kf)).wrapCount = s.wrapCount := by
  dsimp only [step]
  unfold LiveQueue.read
  by_cases hp : s.pauseFlag
  · rw [if_pos hp]
    exact ⟨rfl, rfl⟩
  · rw [if_neg hp]
    have hk := internalRead_keeps cap (if kf then seekNextKeyFrame s else s)
    cases kf with
    | false => exact ⟨hk.1, hk.2.1⟩
    | true =>
      have hs := seekNextKeyFrame_keeps s
      exact ⟨hk.1.trans hs.1, hk.2.1.trans hs.2.1⟩

theorem step_seek_keeps (cap fuel : Nat) (t : Int) (s : QState) :
    (step cap fuel s (.opSeek t)).writePos = s.writePos ∧
    (step cap fuel s (.opSeek t)).wrapCount = s.wrapCount := by
  dsimp only [step]
  exact ⟨(seek_keeps t s).1, (seek_keeps t s).2.1⟩

theorem step_pause_keeps (cap fuel : Nat) (b : Bool) (s : QState) :
    (step cap fuel s (.opPause b)).writePos = s.writePos ∧
    (step cap fuel s (.opPause b)).wrapCount = s.wrapCount := by
  dsimp only [step]
  unfold pause
  by_cases hp : s.pauseFlag = b
  · rw [if_pos hp]
    exact ⟨rfl, rfl⟩
  · rw [if_neg hp]
    exact ⟨rfl, rfl⟩

/-! ## C7: bounded submission queue -/

/-- Folding enqueues over the submission queue: the retained length is
capped at 400 and the ghost counter records exactly the overflow. -/
theorem foldl_queueOp_shape :
    ∀ (ps : List PacketData) (q : List PacketData) (n : Nat),
      q.length ≤ 400 →
      ((ps.foldl queueOp (q, n)).1.length = min (q.length + ps.length) 400 ∧
       (ps.foldl queueOp (q, n)).2 = n + (q.length + ps.length - min (q.length + ps.length) 400)) := by
  intro ps
  induction ps with
  | nil => intro q n h; simp; omega
  | cons p ps ih =>
    intro q n h
    rw [List.foldl_cons]
    by_cases hfull : 400 ≤ q.length
    · have hq : q.length = 400 := le_antisymm h hfull
      have : queueOp (q, n) p = (q, n + 1) := by simp [queueOp, hfull]
      rw [this]
      obtain ⟨h1, h2⟩ := ih q (n + 1) h
      refine ⟨?_, ?_⟩ <;> simp only [h1, h2, List.length_cons] <;> omega
    · have : queueOp (q, n) p = (q ++ [p], n) := by simp [queueOp, hfull]
      rw [this]
      have hlen : (q ++ [p]).length = q.length + 1 := by simp
      obtain ⟨h1, h2⟩ := ih (q ++ [p]) n (by omega)
      refine ⟨?_, ?_⟩ <;> simp only [h1, h2, hlen, List.length_cons] <;> omega

/-- C7: the submission queue is bounded at 400 entries.  An enqueue against
a queue already holding 400 (or more) entries destroys the packet, leaves
the queue unchanged and bumps the dropped counter; enqueueing 401 packets
while the writer is stalled retains exactly 400 and drops exactly 1. -/
theorem submission_queue_bound :
    (∀ (q : List PacketData) (n : Nat) (d : PacketData),
        400 ≤ q.length → queueOp (q, n) d = (q, n + 1)) ∧
    (((List.replicate 401 (plainPkt 0)).foldl queueOp ([], 0)).1.length = 400 ∧
     ((List.replicate 401 (plainPkt 0)).foldl queueOp ([], 0)).2 = 1) := by
  constructor
  · intro q n d h
    simp [queueOp, h]
  · obtain ⟨h1, h2⟩ := foldl_queueOp_shape (List.replicate 401 (plainPkt 0)) [] 0 (Nat.zero_le 400)
    rw [List.length_replicate, List.length_nil] at h1 h2
    exact ⟨by rw [h1]; omega, by rw [h2]; omega⟩

/-- Witness for C7: a queue of exactly 400 entries drops the next packet. -/
theorem submission_queue_bound_witness :
    queueOp (List.replicate 400 (plainPkt 0), 0) (plainPkt 0) =
      (List.replicate 400 (plainPkt 0), 1) :=
  submission_queue_bound.1 (List.replicate 400 (plainPkt 0)) 0 (plainPkt 0)
    (le_of_eq (List.length_replicate 400 (plainPkt 0)).symm)

/-! ## C8: pause semantics -/

/-- C8: pause returns true exactly when it changes the pause flag; calling
pause(true) twice from the unpaused state returns true then false; and while
paused, read returns no packet and leaves the whole state (in particular
both cursors) unchanged. -/
theorem pause_toggle_read_none :
    (∀ (s : QState) (b : Bool),
        (pause b s).1 = true ↔ ¬((pause b s).2.pauseFlag = s.pauseFlag)) ∧
    (∀ s : QState, s.pauseFlag = false →
        (pause true s).1 = true ∧ (pause true (pause true s).2).1 = false) ∧
    (∀ (cap : Nat) (kfm : Bool) (s : QState),
        s.pauseFlag = true → LiveQueue.read cap kfm s = (none, s)) := by
  refine ⟨?_, ?_, ?_⟩
  · intro s b
    by_cases h : s.pauseFlag = b <;> simp [pause, h]
    exact fun hc => h hc.symm
  · intro s h
    constructor <;> simp [pause, h]
  · intro cap kfm s h
    unfold LiveQueue.read
    rw [h]
    simp

/-- Witness for C8 at the initial (unpaused) state and a concrete paused
state. -/
theorem pause_toggle_read_none_witness :
    ((pause true initState).1 = true ∧ (pause true (pause true initState).2).1 = false) ∧
    LiveQueue.read 10 false { initState with pauseFlag := true } =
      (none, { initState with pauseFlag := true }) :=
  ⟨pause_toggle_read_none.2.1 initState rfl,
   pause_toggle_read_none.2.2 10 false { initState with pauseFlag := true } rfl⟩

/-! ## C10: seek failure is atomic -/

/-- C10: whenever seek fails - the keyframe index is empty, or the
newest-to-oldest scan finds no entry at or before the target - it returns
the zero sentinel timestamp and leaves the state (in particular the read
cursor) unchanged. -/
theorem seek_failure_atomic :
    (∀ (t : Int) (s : QState), s.indexList = [] → seek t s = (0, s)) ∧
    (∀ (t : Int) (s : QState) (hd : IndexEntry) (tl : List IndexEntry),
        s.indexList = hd :: tl →
        ¬(((hd :: tl).getLastD hd).wallclockTime ≤ t) →
        ¬(t ≤ hd.wallclockTime) →
        (hd :: tl).reverse.find? (fun e => decide (e.wallclockTime ≤ t)) = none →
        seek t s = (0, s)) := by
  constructor
  · intro t s h
    simp [seek, h, seekAux]
  · intro t s hd tl hidx hnew hold hfind
    simp only [seek, hidx, seekAux]
    rw [if_neg hnew, if_neg hold, hfind]

/-- Witness for C10: seeking in a queue with an empty index fails
atomically. -/
theorem seek_failure_atomic_witness : seek 7 initState = (0, initState) :=
  seek_failure_atomic.1 7 initState rfl

/-! ## C5: seekNextKeyFrame boundary search -/

theorem seekNextKeyFrameLoop_eq (r : Nat) :
    ∀ l : List IndexEntry,
      seekNextKeyFrameLoop r l =
        ((l.zip l.tail).find?
            (fun ij => decide (ij.1.filePosition < r ∧ r ≤ ij.2.filePosition))).map
          (fun ij => ij.2.filePosition) := by
  intro l
  induction l with
  | nil => rfl
  | cons a l ih =>
    cases l with
    | nil => rfl
    | cons b l2 =>
      have hzip : ((a :: b :: l2).zip (a :: b :: l2).tail)
          = (a, b) :: ((b :: l2).zip (b :: l2).tail) := by
        simp [List.zip_cons_cons]
      rw [seekNextKeyFrameLoop, hzip]
      by_cases hc : a.filePosition < r ∧ r ≤ b.filePosition
      · rw [if_pos hc, List.find?_cons_of_pos _ (by simpa using hc)]
        rfl
      · rw [if_neg hc, List.find?_cons_of_neg _ (by simpa using hc), ih]

/-- C5: seekNextKeyFrame scans the index (in file-offset order, given an
index sorted by file offset) for the first adjacent pair (i, j) with
i.filePosition < readPos and readPos ≤ j.filePosition and repositions the
read cursor to the file offset of j; if no such pair exists - in particular
for an empty or single-entry index - the whole state is left unchanged. -/
theorem seekNextKeyFrame_boundary (s : QState)
    (hsort : List.Pairwise (fun a b => a.filePosition ≤ b.filePosition) s.indexList) :
    seekNextKeyFrame s = { s with readPos :=
      (((s.indexList.zip s.indexList.tail).find?
          (fun ij => decide (ij.1.filePosition < s.readPos ∧ s.readPos ≤ ij.2.filePosition))).map
        (fun ij => ij.2.filePosition)).getD s.readPos } := by
  unfold seekNextKeyFrame
  rw [seekNextKeyFrameLoop_eq]
  cases h : (s.indexList.zip s.indexList.tail).find?
      (fun ij => decide (ij.1.filePosition < s.readPos ∧ s.readPos ≤ ij.2.filePosition)) with
  | none => simp [h]
  | some ij => simp [h]

/-- Witness for C5: with keyframes at offsets 0, 5, 9 and the read cursor at
offset 3, the cursor is repositioned to offset 5. -/
theorem seekNextKeyFrame_boundary_witness :
    seekNextKeyFrame c5state = { c5state with readPos := 5 } :=
  seekNextKeyFrame_boundary c5state (by decide)

/-! ## C4: seek clamping at both ends -/

/-- C4 counterexample: with a two-entry index whose oldest and newest
entries carry the same wall-clock time 5 (offsets 0 and 7, timestamps 1 and
2) and target 5, the target is at or before the oldest entry time, yet seek
positions at the newest entry and returns its timestamp, not the oldest
ones: the newest-clamp branch takes precedence. -/
theorem seek_clamp_counterexample :
    List.Pairwise (fun a b => a.wallclockTime ≤ b.wallclockTime) c4state.indexList ∧
    c4state.indexList.head? = some ⟨0, 5, 1, 0⟩ ∧
    c4state.indexList.getLast? = some ⟨7, 5, 2, 0⟩ ∧
    (5 : Int) ≤ 5 ∧
    (seek 5 c4state).1 = 2 ∧
    (seek 5 c4state).2.readPos = 7 ∧
    ¬((seek 5 c4state).1 = 1) ∧
    ¬((seek 5 c4state).2.readPos = 0) := by
  refine ⟨by decide, by decide, by decide, by decide, ?_, ?_, ?_, ?_⟩ <;> decide

/-- C4 amended: the clamps are applied in order.  If the target is at or
after the newest entry wall-clock time, seek positions at the newest entry
and returns its presentation timestamp; otherwise, if the target is at or
before the oldest entry wall-clock time (in particular any negative
target), seek positions at the oldest entry and returns its presentation
timestamp. -/
theorem seek_clamp_ends :
    (∀ (t : Int) (s : QState) (hd : IndexEntry) (tl : List IndexEntry),
        s.indexList = hd :: tl →
        ((hd :: tl).getLastD hd).wallclockTime ≤ t →
        seek t s = (((hd :: tl).getLastD hd).pts,
          { s with readPos := ((hd :: tl).getLastD hd).filePosition })) ∧
    (∀ (t : Int) (s : QState) (hd : IndexEntry) (tl : List IndexEntry),
        s.indexList = hd :: tl →
        t ≤ hd.wallclockTime →
        t < ((hd :: tl).getLastD hd).wallclockTime →
        seek t s = (hd.pts, { s with readPos := hd.filePosition })) := by
  constructor
  · intro t s hd tl hidx hnew
    simp only [seek, hidx, seekAux]
    rw [if_pos hnew]
  · intro t s hd tl hidx hold hhigh
    simp only [seek, hidx, seekAux]
    rw [if_neg (not_le.mpr hhigh), if_pos hold]

/-- Witness for C4: clamping to the newest entry for a late target and to
the oldest entry for a negative target, on the three-entry index. -/
theorem seek_clamp_ends_witness :
    seek 35 c3state = (300, { c3state with readPos := 9 }) ∧
    seek (-5) c3state = (100, { c3state with readPos := 0 }) :=
  ⟨seek_clamp_ends.1 35 c3state ⟨0, 10, 100, 0⟩ [⟨5, 20, 200, 0⟩, ⟨9, 30, 300, 0⟩]
      rfl (by decide),
   seek_clamp_ends.2 (-5) c3state ⟨0, 10, 100, 0⟩ [⟨5, 20, 200, 0⟩, ⟨9, 30, 300, 0⟩]
      rfl (by decide) (by decide)⟩

/-! ## C3: seek is a predecessor search -/

theorem find?_split {α : Type} (p : α → Bool) :
    ∀ (L : List α) (e : α), L.find? p = some e →
      ∃ A B, L = A ++ e :: B ∧ (∀ x ∈ A, p x = false) := by
  intro L
  induction L with
  | nil => intro e h; simp [List.find?] at h
  | cons a L ih =>
    intro e h
    by_cases hpa : p a = true
    · rw [List.find?_cons_of_pos _ hpa] at h
      cases h
      exact ⟨[], L, rfl, by simp⟩
    · rw [List.find?_cons_of_neg _ (by simpa using hpa)] at h
      obtain ⟨A, B, hL, hA⟩ := ih e h
      refine ⟨a :: A, B, by rw [hL]; rfl, ?_⟩
      intro x hx
      rcases List.mem_cons.mp hx with rfl | hx
      · simpa using hpa
      · exact hA x hx

theorem find?_reverse_split (p : IndexEntry → Bool) (l : List IndexEntry) (e : IndexEntry)
    (h : l.reverse.find? p = some e) :
    ∃ l1 l2, l = l1 ++ e :: l2 ∧ (∀ x ∈ l2, p x = false) := by
  obtain ⟨A, B, hrev, hA⟩ := find?_split p l.reverse e h
  refine ⟨B.reverse, A.reverse, ?_, ?_⟩
  · have := congrArg List.reverse hrev
    rw [List.reverse_reverse] at this
    rw [this]
    simp
  · intro x hx
    exact hA x (by simpa using hx)

/-- C3: for a non-empty keyframe index sorted by wall-clock time and a
target strictly between the oldest and newest wall-clock times, seek
selects the latest entry whose wall-clock time is at or before the target
(every entry after the selected one is strictly later than the target, and
no entry at or before the target is later than the selected one), returns
its presentation timestamp and positions the read cursor at its file
offset; in particular the selected keyframe is never later than the
target. -/
theorem seek_predecessor_search (s : QState) (t : Int) (hd : IndexEntry)
    (tl : List IndexEntry)
    (hidx : s.indexList = hd :: tl)
    (hsort : List.Pairwise (fun a b => a.wallclockTime ≤ b.wallclockTime) (hd :: tl))
    (hlow : hd.wallclockTime < t)
    (hhigh : t < ((hd :: tl).getLastD hd).wallclockTime) :
    ∃ e l1 l2, hd :: tl = l1 ++ e :: l2 ∧
      e.wallclockTime ≤ t ∧
      (∀ x ∈ l2, t < x.wallclockTime) ∧
      (∀ x ∈ hd :: tl, x.wallclockTime ≤ t → x.wallclockTime ≤ e.wallclockTime) ∧
      seek t s = (e.pts, { s with readPos := e.filePosition }) := by
  have hmem : hd ∈ (hd :: tl).reverse := by simp
  have hphd : (fun e => decide (e.wallclockTime ≤ t)) hd = true := by
    simp [le_of_lt hlow]
  have hsome : ((hd :: tl).reverse.find? (fun e => decide (e.wallclockTime ≤ t))).isSome := by
    rw [List.find?_isSome]
    exact ⟨hd, hmem, hphd⟩
  obtain ⟨e, he⟩ := Option.isSome_iff_exists.mp hsome
  obtain ⟨l1, l2, hsplit, hl2⟩ := find?_reverse_split _ (hd :: tl) e he
  have het : e.wallclockTime ≤ t := by
    have := List.find?_some he
    simpa using this
  have hl2t : ∀ x ∈ l2, t < x.wallclockTime := by
    intro x hx
    have := hl2 x hx
    simp at this
    omega
  refine ⟨e, l1, l2, hsplit, het, hl2t, ?_, ?_⟩
  · intro x hx hxt
    rw [hsplit] at hx
    rcases List.mem_append.mp hx with hx1 | hx2
    · rw [hsplit] at hsort
      have := (List.pairwise_append.mp hsort).2.2 x hx1 e (by simp)
      exact this
    · rcases List.mem_cons.mp hx2 with rfl | hx3
      · exact le_refl _
      · exact absurd hxt (not_le.mpr (hl2t x hx3))
  · simp only [seek, hidx, seekAux]
    rw [if_neg (not_le.mpr hhigh), if_neg (not_le.mpr hlow), he]

/-- Witness for C3: on the three-entry index with wall-clock times 10, 20,
30 and target 25, seek selects the middle entry (time 20). -/
theorem seek_predecessor_search_witness :
    ∃ e l1 l2,
      ([⟨0, 10, 100, 0⟩, ⟨5, 20, 200, 0⟩, ⟨9, 30, 300, 0⟩] : List IndexEntry) = l1 ++ e :: l2 ∧
      e.wallclockTime ≤ 25 ∧
      (∀ x ∈ l2, (25 : Int) < x.wallclockTime) ∧
      (∀ x ∈ ([⟨0, 10, 100, 0⟩, ⟨5, 20, 200, 0⟩, ⟨9, 30, 300, 0⟩] : List IndexEntry),
        x.wallclockTime ≤ 25 → x.wallclockTime ≤ e.wallclockTime) ∧
      seek 25 c3state = (e.pts, { c3state with readPos := e.filePosition }) :=
  seek_predecessor_search c3state 25 ⟨0, 10, 100, 0⟩ [⟨5, 20, 200, 0⟩, ⟨9, 30, 300, 0⟩]
    rfl (by decide) (by decide) (by decide)

/-! ## C1: overrun prevention in write -/

/-- C1 counterexample: after the three successful writes of c1trace
(capacity 10) the read cursor is at offset 0 and the write cursor at offset
10.  A 2-byte write then wraps the write cursor, so it runs while wrapped
with candidate range [0, 2) overtaking the read offset 0.  By the claim the
store skips packets exactly until the range no longer overtakes the read
offset and then persists: the very first skip succeeds (a 3-byte packet)
and already moves the read cursor to 3 > 2, so the claim predicts success
after one skip.  The code instead compares against the read offset sampled
once at the start of the write (livequeue.cpp line 174), keeps skipping
until the read cursor wraps - clearing the wrapped flag - and the next
internalRead yields nothing (read offset 0, write offset 0), so the write
fails even though the read cursor made forward progress. -/
theorem write_skip_boundary_counterexample :
    opsOk 10 10 initState c1trace = true ∧
    (run 10 10 c1trace initState).readPos = 0 ∧
    (run 10 10 c1trace initState).writePos = 10 ∧
    (run 10 10 c1trace initState).wrapped = false ∧
    (writeBegin 10 9 (run 10 10 c1trace initState)).wrapped = true ∧
    (writeBegin 10 9 (run 10 10 c1trace initState)).writePos = 0 ∧
    (internalRead 10 (writeBegin 10 9 (run 10 10 c1trace initState))).1 = some 3 ∧
    (internalRead 10 (writeBegin 10 9 (run 10 10 c1trace initState))).2.readPos = 3 ∧
    writeOk 10 10 (plainPkt 2) 9 (run 10 10 c1trace initState) = false ∧
    (step 10 10 (run 10 10 c1trace initState) (.opWrite (plainPkt 2) 9)).readPos = 0 ∧
    (step 10 10 (run 10 10 c1trace initState) (.opWrite (plainPkt 2) 9)).wrapped = false ∧
    (step 10 10 (run 10 10 c1trace initState) (.opWrite (plainPkt 2) 9)).readWrapCount = 1 := by
  decide

/-- C1 amended: the overrun loop compares the candidate packet end
(writeOffset + packetLength) against the read offset sampled once at the
start of the write, never against the advancing read cursor.  When the loop
stops normally, either it was never entered (the sampled offset already
exceeded the candidate end, or the buffer was not wrapped) or the wrapped
flag has been cleared by a read-cursor wrap during a skip; every failing
skip is an internalRead that yields no packet from a state the (sampled)
loop condition covers; and the write returns failure exactly when the skip
loop fails this way. -/
theorem write_overrun_skip_amended :
    (∀ (cap fuel packetEnd readPosition : Nat) (s s2 : QState),
        skipLoop cap packetEnd readPosition fuel s = .stop s2 →
        ¬(readPosition ≤ packetEnd ∧ s2.wrapped = true)) ∧
    (∀ (cap fuel packetEnd readPosition : Nat) (s s2 : QState),
        skipLoop cap packetEnd readPosition fuel s = .fail s2 →
        ∃ u, (readPosition ≤ packetEnd ∧ u.wrapped = true) ∧
          internalRead cap u = (none, s2)) ∧
    (∀ (cap fuel : Nat) (d : PacketData) (now : Int) (s s2 : QState),
        write cap fuel d now s = .done false s2 ↔
        skipLoop cap ((writeBegin cap now s).writePos + d.p.packetLength) s.readPos fuel
          (writeBegin cap now s) = .fail s2) := by
  refine ⟨?_, ?_, ?_⟩
  · intro cap fuel packetEnd readPosition
    induction fuel with
    | zero => intro s s2 h; simp [skipLoop] at h
    | succ n ih =>
      intro s s2 h
      rw [skipLoop] at h
      split at h
      · rcases h2 : internalRead cap s with ⟨r, s1⟩
        rw [h2] at h
        cases r with
        | none => simp at h
        | some len => exact ih s1 s2 h
      · cases h
        assumption
  · intro cap fuel packetEnd readPosition
    induction fuel with
    | zero => intro s s2 h; simp [skipLoop] at h
    | succ n ih =>
      intro s s2 h
      rw [skipLoop] at h
      split at h
      · rcases h2 : internalRead cap s with ⟨r, s1⟩
        rw [h2] at h
        cases r with
        | none =>
          cases h
          exact ⟨s, by assumption, h2⟩
        | some len => exact ih s1 s2 h
      · simp at h
  · intro cap fuel d now s s2
    cases hsk : skipLoop cap ((writeBegin cap now s).writePos + d.p.packetLength) s.readPos
        fuel (writeBegin cap now s) with
    | stop s3 => simp [write, hsk]
    | fail s3 => simp [write, hsk]
    | out => simp [write, hsk]

/-- Witness for C1: from the initial (unwrapped) state the skip loop stops
immediately, and indeed the loop condition fails at the stop state. -/
theorem write_overrun_skip_amended_witness :
    ¬((0 : Nat) ≤ 3 ∧ initState.wrapped = true) :=
  write_overrun_skip_amended.1 10 5 3 0 initState initState rfl

/-! ## C6: queue start time bookkeeping -/

/-- C6 counterexample: capacity 10; after c6opsA the queue start time is
100 (the wrapping third write fails inside the skip loop and returns before
trim) and the index holds the single keyframe entry at offset 6, with
hasWrapped set.  The fourth write (3 bytes, time 400) succeeds, and its
trim pass removes nothing from the index (the surviving entry is identical
before and after), yet the queue start time changes from 100 to 200: the
refresh happens without pruning removing the previous oldest entry. -/
theorem queueStartTime_refresh_counterexample :
    (run 10 10 c6opsA initState).queueStartTime = 100 ∧
    (run 10 10 c6opsA initState).hasWrapped = true ∧
    writeOk 10 10 (plainPkt 3) 400 (run 10 10 c6opsA initState) = true ∧
    (run 10 10 c6opsB initState).queueStartTime = 200 ∧
    (run 10 10 c6opsB initState).indexList = (run 10 10 c6opsA initState).indexList ∧
    (run 10 10 c6opsA initState).indexList = [⟨6, 200, 55, 0⟩] := by
  decide

/-- C6 amended: the queue start time is zero initially; any write that sees
it zero records the current wall-clock time, and when no wrap has occurred
(neither before nor during that write, the write cursor being below
capacity) the recorded value survives the write; trim leaves the state
unchanged when no wrap has ever occurred or the index is empty; and once a
wrap has occurred, trim sets the queue start time to the wall-clock time of
the oldest surviving index entry after every write, whether or not an entry
was pruned. -/
theorem queueStartTime_bookkeeping :
    initState.queueStartTime = 0 ∧
    (∀ (pos : Nat) (s : QState),
        s.hasWrapped = false ∨ s.indexList = [] → trim pos s = s) ∧
    (∀ (pos : Nat) (s : QState) (hd : IndexEntry) (tl : List IndexEntry),
        s.hasWrapped = true → (trim pos s).indexList = hd :: tl →
        (trim pos s).queueStartTime = hd.wallclockTime) ∧
    (∀ (cap fuel : Nat) (d : PacketData) (now : Int) (s : QState) (b : Bool) (s2 : QState),
        s.queueStartTime = 0 → s.hasWrapped = false → s.writePos < cap →
        write cap fuel d now s = .done b s2 → s2.queueStartTime = now) := by
  refine ⟨rfl, ?_, ?_, ?_⟩
  · intro pos s h
    unfold trim
    rw [if_pos h]
  · intro pos s hd tl hw hcons
    by_cases hemp : s.indexList = []
    · rw [trim, if_pos (Or.inr hemp)] at hcons
      rw [hemp] at hcons
      simp at hcons
    · have hcond : ¬(s.hasWrapped = false ∨ s.indexList = []) := by
        rw [hw]
        simp [hemp]
      rcases hsl : s.indexList with _ | ⟨p, rest⟩
      · exact absurd hsl hemp
      · rw [trim, if_neg hcond, hsl] at hcons ⊢
        (try dsimp only at hcons ⊢)
        by_cases hpop : p.filePosition < pos ∧ p.wrapCount < s.wrapCount
        · rw [if_pos hpop] at hcons ⊢
          (try dsimp only at hcons ⊢)
          cases rest with
          | nil => simp at hcons
          | cons q rest2 =>
            (try dsimp only at hcons ⊢)
            cases hcons
            rfl
        · rw [if_neg hpop] at hcons ⊢
          rw [hsl] at hcons ⊢
          (try dsimp only at hcons ⊢)
          cases hcons
          rfl
  · intro cap fuel d now s b s2 hq hw hcap hwr
    have hwb : writeBegin cap now s = { s with queueStartTime := now } := by
      unfold writeBegin
      rw [if_pos hq]
      rw [if_neg]
      simpa using not_le.mpr hcap
    unfold write at hwr
    rw [hwb] at hwr
    dsimp only at hwr
    cases hsk : skipLoop cap (s.writePos + d.p.packetLength) s.readPos fuel
        { s with queueStartTime := now } with
    | out =>
      rw [hsk] at hwr
      simp at hwr
    | fail s3 =>
      rw [hsk] at hwr
      have hk := skipLoop_keeps cap (s.writePos + d.p.packetLength) s.readPos fuel
        { s with queueStartTime := now } s3 (Or.inr hsk)
      cases hwr
      exact hk.2.2.2.2.1
    | stop s3 =>
      rw [hsk] at hwr
      dsimp only at hwr
      have hk := skipLoop_keeps cap (s.writePos + d.p.packetLength) s.readPos fuel
        { s with queueStartTime := now } s3 (Or.inl hsk)
      have htr : trim (s.writePos + d.p.packetLength) s3 = s3 := by
        unfold trim
        rw [if_pos (Or.inl (hk.2.2.1.trans hw))]
      rw [htr] at hwr
      by_cases hkf : d.p.clientId = FrameType.ftIFRAME ∧ d.content = Content.scVIDEO
      · rw [if_pos hkf] at hwr
        cases hwr
        exact hk.2.2.2.2.1
      · rw [if_neg hkf] at hwr
        cases hwr
        exact hk.2.2.2.2.1

/-- Witness for C6: the very first write from the initial state (capacity
10, wall-clock 42, 3-byte non-keyframe) records queue start time 42, and a
trim on the initial state is a no-op. -/
theorem queueStartTime_bookkeeping_witness :
    ({ initState with
        queueStartTime := 42
        disk := diskWrite initState.disk 0 3
        writePos := 3 } : QState).queueStartTime = 42 ∧
    trim 5 initState = initState :=
  ⟨queueStartTime_bookkeeping.2.2.2 10 10 (plainPkt 3) 42 initState true
      { initState with
        queueStartTime := 42
        disk := diskWrite initState.disk 0 3
        writePos := 3 }
      rfl rfl (by decide) rfl,
   queueStartTime_bookkeeping.2.1 5 initState (Or.inl rfl)⟩

/-! ## C2: write offset and wrap generation arithmetic -/

theorem trim_keeps (pos : Nat) (s : QState) :
    (trim pos s).writePos = s.writePos ∧ (trim pos s).wrapCount = s.wrapCount ∧
    (trim pos s).readPos = s.readPos ∧ (trim pos s).wrapped = s.wrapped ∧
    (trim pos s).hasWrapped = s.hasWrapped ∧
    (trim pos s).readWrapCount = s.readWrapCount ∧
    (trim pos s).pauseFlag = s.pauseFlag ∧ (trim pos s).disk = s.disk := by
  unfold trim
  split
  · exact ⟨rfl, rfl, rfl, rfl, rfl, rfl, rfl, rfl⟩
  · dsimp only
    repeat' split
    all_goals exact ⟨rfl, rfl, rfl, rfl, rfl, rfl, rfl, rfl⟩

theorem writeBegin_proj (cap : Nat) (now : Int) (s : QState) :
    (writeBegin cap now s).writePos = (if cap ≤ s.writePos then 0 else s.writePos) ∧
    (writeBegin cap now s).wrapCount
      = (if cap ≤ s.writePos then s.wrapCount + 1 else s.wrapCount) ∧
    (writeBegin cap now s).wrapped
      = (if cap ≤ s.writePos then !s.wrapped else s.wrapped) ∧
    (writeBegin cap now s).hasWrapped
      = (if cap ≤ s.writePos then true else s.hasWrapped) ∧
    (writeBegin cap now s).readPos = s.readPos ∧
    (writeBegin cap now s).readWrapCount = s.readWrapCount := by
  unfold writeBegin
  by_cases hq : s.queueStartTime = 0 <;> by_cases hc : cap ≤ s.writePos <;>
    simp [hq, hc]

theorem write_done_true_shape (cap fuel : Nat) (d : PacketData) (now : Int)
    (s s2 : QState) (h : write cap fuel d now s = .done true s2) :
    s2.writePos = (writeBegin cap now s).writePos + d.p.packetLength ∧
    s2.wrapCount = (writeBegin cap now s).wrapCount := by
  unfold write at h
  dsimp only at h
  cases hsk : skipLoop cap ((writeBegin cap now s).writePos + d.p.packetLength) s.readPos
      fuel (writeBegin cap now s) with
  | out => rw [hsk] at h; simp at h
  | fail s3 => rw [hsk] at h; simp at h
  | stop s3 =>
    rw [hsk] at h
    dsimp only at h
    have hk := skipLoop_keeps cap ((writeBegin cap now s).writePos + d.p.packetLength)
      s.readPos fuel (writeBegin cap now s) s3 (Or.inl hsk)
    have ht := trim_keeps ((writeBegin cap now s).writePos + d.p.packetLength) s3
    by_cases hkf : d.p.clientId = FrameType.ftIFRAME ∧ d.content = Content.scVIDEO
    · rw [if_pos hkf] at h
      cases h
      exact ⟨rfl, ht.2.1.trans hk.2.1⟩
    · rw [if_neg hkf] at h
      cases h
      exact ⟨rfl, ht.2.1.trans hk.2.1⟩

theorem ops_inv (cap fuel : Nat) :
    ∀ (ops : List Op) (s : QState) (c : Nat),
      opsClean cap fuel s ops = true →
      s.wrapCount * cap + s.writePos = c →
      s.writePos ≤ cap →
      (run cap fuel ops s).wrapCount * cap + (run cap fuel ops s).writePos
        = c + writeBytes ops ∧
      (run cap fuel ops s).writePos ≤ cap := by
  intro ops
  induction ops with
  | nil =>
    intro s c hclean hinv hle
    refine ⟨?_, hle⟩
    simpa [run, writeBytes] using hinv
  | cons op ops ih =>
    intro s c hclean hinv hle
    have hrun : run cap fuel (op :: ops) s = run cap fuel ops (step cap fuel s op) := rfl
    cases op with
    | opWrite d now =>
      rw [opsClean, Bool.and_eq_true] at hclean
      obtain ⟨hop, hrest⟩ := hclean
      rw [opCleanChk, Bool.and_eq_true] at hop
      obtain ⟨hns, hok⟩ := hop
      have hns2 : (if cap ≤ s.writePos then 0 else s.writePos) + d.p.packetLength ≤ cap :=
        of_decide_eq_true hns
      rcases hw : write cap fuel d now s with s3 | ⟨b, s3⟩
      · rw [writeOk, hw] at hok; simp at hok
      · cases b with
        | false => rw [writeOk, hw] at hok; simp at hok
        | true =>
          have hstep : step cap fuel s (.opWrite d now) = s3 := by
            simp [step, hw]
          have hshape := write_done_true_shape cap fuel d now s s3 hw
          have hproj := writeBegin_proj cap now s
          have hwp : s3.writePos
              = (if cap ≤ s.writePos then 0 else s.writePos) + d.p.packetLength := by
            rw [hshape.1, hproj.1]
          have hwc : s3.wrapCount
              = (if cap ≤ s.writePos then s.wrapCount + 1 else s.wrapCount) := by
            rw [hshape.2, hproj.2.1]
          have hbytes : writeBytes (Op.opWrite d now :: ops)
              = d.p.packetLength + writeBytes ops := rfl
          rw [hstep] at hrest
          have hinv3 : s3.wrapCount * cap + s3.writePos = c + d.p.packetLength := by
            by_cases hc : cap ≤ s.writePos
            · have hcapEq : s.writePos = cap := le_antisymm hle hc
              rw [hwp, hwc, if_pos hc, if_pos hc, Nat.add_mul, Nat.one_mul, Nat.zero_add]
              have hfold : s.wrapCount * cap + cap = c := by
                rw [← hinv, hcapEq]
              rw [hfold]
            · rw [hwp, hwc, if_neg hc, if_neg hc, ← Nat.add_assoc, hinv]
          have hle3 : s3.writePos ≤ cap := by
            rw [hwp]
            exact hns2
          obtain ⟨ha, hb⟩ := ih s3 (c + d.p.packetLength) hrest hinv3 hle3
          rw [hrun, hstep, hbytes]
          refine ⟨?_, hb⟩
          rw [ha]
          omega
    | opRead kf =>
      rw [opsClean, Bool.and_eq_true] at hclean
      obtain ⟨hop, hrest⟩ := hclean
      have hk := step_read_keeps cap fuel kf s
      have hinv2 : (step cap fuel s (.opRead kf)).wrapCount * cap
          + (step cap fuel s (.opRead kf)).writePos = c := by
        rw [hk.1, hk.2]
        exact hinv
      have hle2 : (step cap fuel s (.opRead kf)).writePos ≤ cap := by
        rw [hk.1]
        exact hle
      have hres := ih (step cap fuel s (.opRead kf)) c hrest hinv2 hle2
      rw [hrun]
      exact hres
    | opSeek t =>
      rw [opsClean, Bool.and_eq_true] at hclean
      obtain ⟨hop, hrest⟩ := hclean
      have hk := step_seek_keeps cap fuel t s
      have hinv2 : (step cap fuel s (.opSeek t)).wrapCount * cap
          + (step cap fuel s (.opSeek t)).writePos = c := by
        rw [hk.1, hk.2]
        exact hinv
      have hle2 : (step cap fuel s (.opSeek t)).writePos ≤ cap := by
        rw [hk.1]
        exact hle
      have hres := ih (step cap fuel s (.opSeek t)) c hrest hinv2 hle2
      rw [hrun]
      exact hres
    | opPause pb =>
      rw [opsClean, Bool.and_eq_true] at hclean
      obtain ⟨hop, hrest⟩ := hclean
      have hk := step_pause_keeps cap fuel pb s
      have hinv2 : (step cap fuel s (.opPause pb)).wrapCount * cap
          + (step cap fuel s (.opPause pb)).writePos = c := by
        rw [hk.1, hk.2]
        exact hinv
      have hle2 : (step cap fuel s (.opPause pb)).writePos ≤ cap := by
        rw [hk.1]
        exact hle
      have hres := ih (step cap fuel s (.opPause pb)) c hrest hinv2 hle2
      rw [hrun]
      exact hres

/-- C2 counterexample: capacity 10, two successful writes of 7 bytes each
(cumulative 14 > 10).  After the second write the write offset is 14, not
14 mod 10 = 4, and the wrap generation is 0, not 14 div 10 = 1: the code
wraps lazily, only at the start of the next write, and a packet may
straddle the capacity boundary. -/
theorem write_offset_mod_counterexample :
    opsOk 10 10 initState c2ops = true ∧
    writeBytes c2ops = 14 ∧
    (run 10 10 c2ops initState).writePos = 14 ∧
    ¬((run 10 10 c2ops initState).writePos = 14 % 10) ∧
    (run 10 10 c2ops initState).wrapCount = 0 ∧
    ¬((run 10 10 c2ops initState).wrapCount = 14 / 10) := by
  decide

/-- C2 amended: writes may be interleaved with reads, seeks and pauses (a
lap-completing write can only succeed once the consumer has caught up);
for every operation sequence from the empty queue in which every write
succeeds and none straddles the capacity boundary, after each operation
wrapGeneration * capacity + writeOffset = cumulativeBytesWritten and
writeOffset ≤ capacity.  Hence writeOffset = cumulative mod capacity and
wrapGeneration = cumulative div capacity whenever writeOffset < capacity;
immediately after a write that ends exactly at capacity, writeOffset equals
capacity and wrapGeneration is one lap behind cumulative div capacity (the
wrap is performed lazily by the next write). -/
theorem write_offset_lap_invariant (cap fuel : Nat) (ops : List Op)
    (hcap : 0 < cap) (hclean : opsClean cap fuel initState ops = true) :
    (run cap fuel ops initState).wrapCount * cap
        + (run cap fuel ops initState).writePos = writeBytes ops ∧
    (run cap fuel ops initState).writePos ≤ cap ∧
    ((run cap fuel ops initState).writePos < cap →
      (run cap fuel ops initState).writePos = writeBytes ops % cap ∧
      (run cap fuel ops initState).wrapCount = writeBytes ops / cap) ∧
    ((run cap fuel ops initState).writePos = cap →
      writeBytes ops % cap = 0 ∧
      (run cap fuel ops initState).wrapCount + 1 = writeBytes ops / cap) := by
  obtain ⟨hE, hle⟩ := ops_inv cap fuel ops initState 0 hclean (by simp [initState]) (Nat.zero_le cap)
  rw [Nat.zero_add] at hE
  refine ⟨hE, hle, ?_, ?_⟩
  · intro hlt
    constructor
    · rw [← hE, Nat.mul_comm, Nat.mul_add_mod, Nat.mod_eq_of_lt hlt]
    · rw [← hE, Nat.mul_comm, Nat.mul_add_div hcap, Nat.div_eq_of_lt hlt, Nat.add_zero]
  · intro heq
    have hsum : writeBytes ops = ((run cap fuel ops initState).wrapCount + 1) * cap := by
      rw [← hE, heq, Nat.add_mul, Nat.one_mul]
    constructor
    · rw [hsum, Nat.mul_mod_left]
    · rw [hsum, Nat.mul_div_cancel _ hcap]

/-- Witness for C2: capacity 10 with two clean 5-byte writes, two reads and
a clean wrapping 5-byte write (15 bytes total); afterwards the offset is
5 = 15 mod 10 and the generation is 1 = 15 div 10. -/
theorem write_offset_lap_invariant_witness :
    (0 < 10 ∧ opsClean 10 10 initState c2witOps = true) ∧
    ((run 10 10 c2witOps initState).wrapCount * 10
        + (run 10 10 c2witOps initState).writePos = writeBytes c2witOps ∧
      (run 10 10 c2witOps initState).writePos ≤ 10 ∧
      ((run 10 10 c2witOps initState).writePos < 10 →
        (run 10 10 c2witOps initState).writePos = writeBytes c2witOps % 10 ∧
        (run 10 10 c2witOps initState).wrapCount = writeBytes c2witOps / 10) ∧
      ((run 10 10 c2witOps initState).writePos = 10 →
        writeBytes c2witOps % 10 = 0 ∧
        (run 10 10 c2witOps initState).wrapCount + 1 = writeBytes c2witOps / 10)) :=
  ⟨⟨by decide, by decide⟩,
   write_offset_lap_invariant 10 10 c2witOps (by decide) (by decide)⟩

/-! ## C9: the wrapped flag and cursor-wrap parity -/

theorem internalRead_wrap_fields (cap : Nat) (s : QState) :
    ((internalRead cap s).2.wrapped = s.wrapped ∧
     (internalRead cap s).2.wrapCount = s.wrapCount ∧
     (internalRead cap s).2.readWrapCount = s.readWrapCount) ∨
    ((internalRead cap s).2.wrapped = !s.wrapped ∧
     (internalRead cap s).2.wrapCount = s.wrapCount ∧
     (internalRead cap s).2.readWrapCount = s.readWrapCount + 1) := by
  unfold internalRead
  dsimp only
  by_cases h1 : cap ≤ s.readPos
  · rw [if_pos h1]
    refine Or.inr ?_
    split
    · exact ⟨rfl, rfl, rfl⟩
    · split <;> exact ⟨rfl, rfl, rfl⟩
  · rw [if_neg h1]
    refine Or.inl ?_
    split
    · exact ⟨rfl, rfl, rfl⟩
    · split <;> exact ⟨rfl, rfl, rfl⟩

theorem internalRead_parity (cap : Nat) (s : QState)
    (h : (s.wrapped = true) ↔ (s.wrapCount + s.readWrapCount) % 2 = 1) :
    ((internalRead cap s).2.wrapped = true)
      ↔ ((internalRead cap s).2.wrapCount + (internalRead cap s).2.readWrapCount) % 2 = 1 := by
  rcases internalRead_wrap_fields cap s with ⟨h1, h2, h3⟩ | ⟨h1, h2, h3⟩
  · rw [h1, h2, h3]
    exact h
  · rw [h1, h2, h3]
    cases hb : s.wrapped <;> rw [hb] at h <;> simp at h ⊢ <;> omega

theorem skipLoop_parity (cap packetEnd readPosition : Nat) :
    ∀ (fuel : Nat) (s s2 : QState),
      (skipLoop cap packetEnd readPosition fuel s = .stop s2 ∨
        skipLoop cap packetEnd readPosition fuel s = .fail s2) →
      ((s.wrapped = true) ↔ (s.wrapCount + s.readWrapCount) % 2 = 1) →
      ((s2.wrapped = true) ↔ (s2.wrapCount + s2.readWrapCount) % 2 = 1) := by
  intro fuel
  induction fuel with
  | zero => intro s s2 h _; rcases h with h | h <;> simp [skipLoop] at h
  | succ n ih =>
    intro s s2 h hp
    rcases h with h | h <;>
    · rw [skipLoop] at h
      split at h
      · rcases h2 : internalRead cap s with ⟨r, s1⟩
        rw [h2] at h
        have hpar := internalRead_parity cap s hp
        rw [h2] at hpar
        cases r with
        | none =>
          first
            | (cases h; exact hpar)
            | simp at h
        | some len =>
          first
            | exact ih s1 s2 (Or.inl h) hpar
            | exact ih s1 s2 (Or.inr h) hpar
      · first
          | (cases h; exact hp)
          | simp at h

theorem writeBegin_parity (cap : Nat) (now : Int) (s : QState)
    (h : (s.wrapped = true) ↔ (s.wrapCount + s.readWrapCount) % 2 = 1) :
    ((writeBegin cap now s).wrapped = true)
      ↔ ((writeBegin cap now s).wrapCount + (writeBegin cap now s).readWrapCount) % 2 = 1 := by
  have hp := writeBegin_proj cap now s
  rw [hp.2.2.1, hp.2.1, hp.2.2.2.2.2]
  by_cases hc : cap ≤ s.writePos
  · rw [if_pos hc, if_pos hc]
    cases hb : s.wrapped <;> rw [hb] at h <;> simp at h ⊢ <;> omega
  · rw [if_neg hc, if_neg hc]
    exact h

theorem step_parity (cap fuel : Nat) (s : QState) (op : Op)
    (h : (s.wrapped = true) ↔ (s.wrapCount + s.readWrapCount) % 2 = 1) :
    ((step cap fuel s op).wrapped = true)
      ↔ ((step cap fuel s op).wrapCount + (step cap fuel s op).readWrapCount) % 2 = 1 := by
  cases op with
  | opWrite d now =>
    have hwb := writeBegin_parity cap now s h
    dsimp only [step]
    unfold write
    dsimp only
    cases hsk : skipLoop cap ((writeBegin cap now s).writePos + d.p.packetLength) s.readPos
        fuel (writeBegin cap now s) with
    | out =>
      dsimp only
      exact hwb
    | fail s3 =>
      dsimp only
      exact skipLoop_parity cap ((writeBegin cap now s).writePos + d.p.packetLength) s.readPos
        fuel (writeBegin cap now s) s3 (Or.inr hsk) hwb
    | stop s3 =>
      dsimp only
      have hpar3 := skipLoop_parity cap ((writeBegin cap now s).writePos + d.p.packetLength)
        s.readPos fuel (writeBegin cap now s) s3 (Or.inl hsk) hwb
      have ht := trim_keeps ((writeBegin cap now s).writePos + d.p.packetLength) s3
      by_cases hkf : d.p.clientId = FrameType.ftIFRAME ∧ d.content = Content.scVIDEO
      · rw [if_pos hkf]
        dsimp only
        rw [ht.2.2.2.1, ht.2.1, ht.2.2.2.2.2.1]
        exact hpar3
      · rw [if_neg hkf]
        rw [ht.2.2.2.1, ht.2.1, ht.2.2.2.2.2.1]
        exact hpar3
  | opRead kf =>
    dsimp only [step]
    unfold LiveQueue.read
    by_cases hp : s.pauseFlag
    · rw [if_pos hp]
      exact h
    · rw [if_neg hp]
      cases kf with
      | false =>
        rw [if_neg (by simp)]
        exact internalRead_parity cap s h
      | true =>
        rw [if_pos rfl]
        have hk := seekNextKeyFrame_keeps s
        have hpar : ((seekNextKeyFrame s).wrapped = true)
            ↔ ((seekNextKeyFrame s).wrapCount
                + (seekNextKeyFrame s).readWrapCount) % 2 = 1 := by
          rw [hk.2.2.1, hk.2.1, hk.2.2.2]
          exact h
        exact internalRead_parity cap (seekNextKeyFrame s) hpar
  | opSeek t =>
    dsimp only [step]
    have hk := seek_keeps t s
    rw [hk.2.2.1, hk.2.1, hk.2.2.2]
    exact h
  | opPause b =>
    dsimp only [step]
    unfold pause
    by_cases hp : s.pauseFlag = b
    · rw [if_pos hp]
      exact h
    · rw [if_neg hp]
      exact h

theorem run_parity (cap fuel : Nat) :
    ∀ (ops : List Op) (s : QState),
      ((s.wrapped = true) ↔ (s.wrapCount + s.readWrapCount) % 2 = 1) →
      (((run cap fuel ops s).wrapped = true)
        ↔ ((run cap fuel ops s).wrapCount + (run cap fuel ops s).readWrapCount) % 2 = 1) := by
  intro ops
  induction ops with
  | nil => intro s h; exact h
  | cons op ops ih =>
    intro s h
    exact ih (step cap fuel s op) (step_parity cap fuel s op h)

/-- C9 counterexample: after the trace c9trace (capacity 10), in which
every write and read succeeds, the state is reachable with wrapped = true,
three write-cursor wraps and no read-cursor wrap (the read cursor sits
parked at offset 14, beyond every candidate packet end, so no wrapping
write ever enters the skip loop): the flag matches the parity of the total
number of cursor wraps, but the write cursor has completed three more laps
than the read cursor, not one, so wrapped being true does not mean the
write cursor is exactly one lap ahead. -/
theorem wrapped_parity_counterexample :
    opsOk 10 10 initState c9trace = true ∧
    (run 10 10 c9trace initState).wrapped = true ∧
    (run 10 10 c9trace initState).wrapCount = 3 ∧
    (run 10 10 c9trace initState).readWrapCount = 0 ∧
    ¬((run 10 10 c9trace initState).wrapCount
        = (run 10 10 c9trace initState).readWrapCount + 1) := by
  decide

/-- C9 amended: in every reachable state the wrapped flag equals the parity
of the total number of cursor wraps - each write-cursor wrap toggles it and
each read-cursor wrap toggles it back - so wrapped is true exactly when the
write cursor has completed an odd number more laps than the read cursor
(not necessarily exactly one more: overshooting writes with a stalled
reader can make the difference exceed one). -/
theorem wrapped_parity_invariant (cap fuel : Nat) (ops : List Op) :
    ((run cap fuel ops initState).wrapped = true)
      ↔ ((run cap fuel ops initState).wrapCount
          + (run cap fuel ops initState).readWrapCount) % 2 = 1 :=
  run_parity cap fuel ops initState (by simp [initState])

/-- Witness for C9 applying the parity invariant to the concrete trace
c9trace, whose final state has three write wraps and no read wrap. -/
theorem wrapped_parity_invariant_witness :
    ((run 10 10 c9trace initState).wrapped = true)
      ↔ ((run 10 10 c9trace initState).wrapCount
          + (run 10 10 c9trace initState).readWrapCount) % 2 = 1 :=
  wrapped_parity_invariant 10 10 c9trace
